import Mathlib

/-!
Verification of the phosphor time-manager core: the Mode/Owner policy,
the BMC and Host epoch operations with their offset reconciliation, and
the `utils` file persistence helpers.

The repository provides `src/utils.hpp` together with the unit tests
`TestBmcEpoch.cpp` and `TestHostEpoch.cpp`.  The epoch implementation
itself (`types.hpp`, `bmc_epoch.*`, `host_epoch.*`) is not part of the
sources, so those parts are modelled from the specification, as noted in
the doc comments below.
-/

namespace PhosphorTime

/-- Modelled from the spec: `Mode` enum from the missing `types.hpp`
(§3): whether time is synchronized automatically (NTP) or set manually. -/
inductive Mode where
  | NTP
  | Manual
deriving DecidableEq, Repr

/-- Modelled from the spec: `Owner` enum from the missing `types.hpp`
(§3): which actor(s) may set time and whether the Host and BMC epochs
are locked together. -/
inductive Owner where
  | BMC
  | Host
  | Split
  | Both
deriving DecidableEq, Repr

/-- The two possible requesters of a time write (§4.1): the BMC-side
epoch object or the Host-side epoch object. -/
inductive Requester where
  | bmc
  | host
deriving DecidableEq, Repr

/-- Error kinds raised by the epoch write paths (§7).  Only
`notAllowed` is produced by the modelled operations; `methodFailure`
belongs to the external clock-write primitive. -/
inductive TimeError where
  | notAllowed
  | methodFailure
deriving DecidableEq, Repr

/-- Modelled from the spec: the policy decision `isSetAllowed(mode,
owner, requester)` (§4.1), transcribing the two decision tables.  The
implementation file holding this check is missing from the sources.  In
this embedding Policy is a pure function of its three arguments, so it
cannot mutate any state. -/
def isSetAllowed (mode : Mode) (owner : Owner) (r : Requester) : Bool :=
  match r with
  | .bmc =>
    match mode, owner with
    | .Manual, .BMC => true
    | .Manual, .Both => true
    | _, _ => false
  | .host =>
    match mode, owner with
    | _, .Split => true
    | .Manual, .Host => true
    | .Manual, .Both => true
    | _, _ => false

/-- Modelled from the spec: the combined state of the two epoch objects
(§3, §4).  `bmcTime` is the current real wall-clock reading in
microseconds since the Unix epoch, `offset` is HostEpoch's in-memory
signed microsecond offset, and `store` is the content of the Offset
Store (`none` means the persisted file is absent).  `timeMode` and
`timeOwner` are the policy state shared by both epochs.  The
implementation files `bmc_epoch.*` / `host_epoch.*` are missing from the
sources. -/
structure State where
  timeMode : Mode
  timeOwner : Owner
  bmcTime : Int
  offset : Int
  store : Option Int
deriving DecidableEq, Repr

/-- Modelled from the spec: `BmcEpoch::elapsed()` (§4.2) returns the
current wall-clock reading in microseconds. -/
def BmcEpoch.elapsed (s : State) : Int :=
  s.bmcTime

/-- Modelled from the spec: `BmcEpoch::elapsed(target)` (§4.2).  The
Policy is consulted with requester = BMC-side before any mutation; on
Denied the call fails with `NotAllowed`, on Allowed the real system
clock is written through to `target`. -/
def BmcEpoch.setElapsed (s : State) (target : Int) : Except TimeError State :=
  if isSetAllowed s.timeMode s.timeOwner Requester.bmc then
    Except.ok { s with bmcTime := target }
  else
    Except.error TimeError.notAllowed

/-- Modelled from the spec: `HostEpoch::elapsed()` (§4.3) returns
`BmcEpoch.elapsed() + Offset`. -/
def HostEpoch.elapsed (s : State) : Int :=
  s.bmcTime + s.offset

/-- Modelled from the spec: `HostEpoch::elapsed(target)` (§4.3).  The
Policy is consulted with requester = Host-side before any mutation.
Denied fails with `NotAllowed`.  Allowed under Owner=Split sets
`Offset := target - BmcEpoch.elapsed()` and persists it, leaving the
real clock untouched.  Allowed under Owner ∈ {Host, Both} delegates to
the BMC write-through, leaving Offset alone. -/
def HostEpoch.setElapsed (s : State) (target : Int) : Except TimeError State :=
  if isSetAllowed s.timeMode s.timeOwner Requester.host then
    if s.timeOwner = Owner.Split then
      Except.ok { s with offset := target - s.bmcTime,
                         store := some (target - s.bmcTime) }
    else
      Except.ok { s with bmcTime := target }
  else
    Except.error TimeError.notAllowed

/-- Modelled from the spec: `HostEpoch::onOwnerChanged(newOwner)`
(§4.3): record the new owner; when it is not Split, reset Offset to 0
and persist it. -/
def HostEpoch.onOwnerChanged (s : State) (newOwner : Owner) : State :=
  if newOwner = Owner.Split then
    { s with timeOwner := newOwner }
  else
    { s with timeOwner := newOwner, offset := 0, store := some 0 }

/-- Modelled from the spec: `HostEpoch::onModeChanged(newMode)` (§4.3):
record the mode for subsequent Policy checks; no mutation of Offset. -/
def HostEpoch.onModeChanged (s : State) (newMode : Mode) : State :=
  { s with timeMode := newMode }

/-- Modelled from the spec: `HostEpoch::onBmcTimeChanged(newBmcValue)`
(§4.3), the reconciliation hook fired when the BMC clock jumps to
`newBmcValue`.  Under Owner=Split the offset is recomputed as
`(old BmcEpoch.elapsed() + Offset) - newBmcValue` and persisted, so the
host-visible epoch is preserved across the jump.  Under a non-Split
owner the spec requires that the hook not reintroduce a nonzero Offset
("while Owner is non-Split, `onBmcTimeChanged` should not reintroduce a
nonzero Offset"), so only the new clock reading is taken up. -/
def HostEpoch.onBmcTimeChanged (s : State) (newBmcValue : Int) : State :=
  if s.timeOwner = Owner.Split then
    { s with bmcTime := newBmcValue,
             offset := s.bmcTime + s.offset - newBmcValue,
             store := some (s.bmcTime + s.offset - newBmcValue) }
  else
    { s with bmcTime := newBmcValue }

namespace utils

/-- Whether a character is one of the C-locale whitespace characters
skipped by `std::istream` formatted extraction (`fs >> data` in
`utils::readData`, `src/utils.hpp` line 37). -/
def isSpaceCh (c : Char) : Bool :=
  c.toNat = 32 || (9 ≤ c.toNat && c.toNat ≤ 13)

/-- Whether a character is a decimal digit, as recognised by the
stream extraction of an integer. -/
def isDigitCh (c : Char) : Bool :=
  48 ≤ c.toNat && c.toNat ≤ 57

/-- The numeric value of a decimal digit character. -/
def digitVal (c : Char) : Nat :=
  c.toNat - 48

/-- The decimal digit character for a value below ten. -/
def digitChar (d : Nat) : Char :=
  Char.ofNat (48 + d)

/-- Helper for `natDigitsRev`: the first argument is recursion fuel,
always called with fuel at least the number being converted. -/
def natDigitsRevAux : Nat → Nat → List Char
  | _, 0 => []
  | 0, _ + 1 => []
  | fuel + 1, n + 1 => digitChar ((n + 1) % 10) :: natDigitsRevAux fuel ((n + 1) / 10)

/-- The decimal digits of `n`, least-significant first, as produced by
the standard conversion of a nonnegative integer (empty for zero). -/
def natDigitsRev (n : Nat) : List Char :=
  natDigitsRevAux n n

/-- The decimal representation of a natural number, most-significant
digit first. -/
def natToChars (n : Nat) : List Char :=
  if n = 0 then [Char.ofNat 48] else (natDigitsRev n).reverse

/-- The character sequence `operator<<` writes for a signed integer:
a minus sign for negative values followed by the decimal digits of the
absolute value.  This models `fs << data` in `utils::writeData`
(`src/utils.hpp` line 53) at type `int64_t`. -/
def intToChars (i : Int) : List Char :=
  if i < 0 then Char.ofNat 45 :: natToChars i.natAbs else natToChars i.natAbs

/-- Accumulate one decimal digit into a value being parsed. -/
def stepAcc (a : Nat) (c : Char) : Nat :=
  a * 10 + digitVal c

/-- The value of a sequence of decimal digit characters,
most-significant first. -/
def digitsToNat (cs : List Char) : Nat :=
  cs.foldl stepAcc 0

/-- The value `operator>>` extracts from a maximal run of decimal
digits; extraction failure (no digits) leaves the value-initialized 0
of `utils::readData` in place. -/
def extractDigits (cs : List Char) : Int :=
  let ds := cs.takeWhile isDigitCh
  if ds.isEmpty then 0 else (digitsToNat ds : Int)

/-- Consume an optional sign and then a maximal digit run from the
already-whitespace-trimmed character sequence. -/
def extractIntTrim : List Char → Int
  | [] => 0
  | c :: rest =>
    if c = Char.ofNat 45 then - extractDigits rest
    else if c = Char.ofNat 43 then extractDigits rest
    else extractDigits (c :: rest)

/-- The value `fs >> data` stores into an `int64_t` when reading the
character sequence `cs`: leading whitespace is skipped, an optional
sign is consumed, then a maximal run of decimal digits is converted;
when extraction fails the value-initialized 0 remains
(`src/utils.hpp` lines 33-38). -/
def extractInt (cs : List Char) : Int :=
  extractIntTrim (cs.dropWhile isSpaceCh)

/-- The file system as seen by `utils`: a map from file names to the
character content of existing files. -/
def FileSys : Type :=
  String → Option (List Char)

/-- `utils::writeData<int64_t>` (`src/utils.hpp` lines 47-55): open the
named file for output, truncating or creating it, and write the decimal
representation of `data`. -/
def writeData (fs : FileSys) (fileName : String) (data : Int) : FileSys :=
  fun n => if n = fileName then some (intToChars data) else fs n

/-- `utils::readData<int64_t>` (`src/utils.hpp` lines 30-40): value-
initialize the result to 0; when the named file exists, extract an
integer from its content; otherwise return the 0 default. -/
def readData (fs : FileSys) (fileName : String) : Int :=
  match fs fileName with
  | none => 0
  | some cs => extractInt cs

lemma digitVal_digitChar (d : Nat) (hd : d < 10) : digitVal (digitChar d) = d := by
  interval_cases d <;> decide

lemma isDigitCh_digitChar (d : Nat) (hd : d < 10) : isDigitCh (digitChar d) = true := by
  interval_cases d <;> decide

lemma mem_natDigitsRevAux_digit :
    ∀ fuel n c, c ∈ natDigitsRevAux fuel n → isDigitCh c = true := by
  intro fuel
  induction fuel with
  | zero =>
    intro n c hc
    cases n <;> simp [natDigitsRevAux] at hc
  | succ fuel ih =>
    intro n c hc
    cases n with
    | zero => simp [natDigitsRevAux] at hc
    | succ m =>
      simp only [natDigitsRevAux, List.mem_cons] at hc
      rcases hc with h | h
      · subst h
        exact isDigitCh_digitChar _ (Nat.mod_lt _ (by norm_num))
      · exact ih _ _ h

lemma foldl_natDigitsRevAux :
    ∀ fuel n a, n ≤ fuel →
      (natDigitsRevAux fuel n).reverse.foldl stepAcc a
        = a * 10 ^ (natDigitsRevAux fuel n).length + n := by
  intro fuel
  induction fuel with
  | zero =>
    intro n a hn
    interval_cases n
    simp [natDigitsRevAux]
  | succ fuel ih =>
    intro n a hn
    cases n with
    | zero => simp [natDigitsRevAux]
    | succ m =>
      have hlt : (m + 1) / 10 < m + 1 := Nat.div_lt_self (Nat.succ_pos m) (by norm_num)
      have hle : (m + 1) / 10 ≤ fuel := by omega
      have hmod : (m + 1) % 10 < 10 := Nat.mod_lt _ (by norm_num)
      have hdm : 10 * ((m + 1) / 10) + (m + 1) % 10 = m + 1 := Nat.div_add_mod (m + 1) 10
      simp only [natDigitsRevAux, List.reverse_cons, List.foldl_append, List.length_cons]
      rw [ih _ a hle]
      simp only [List.foldl_cons, List.foldl_nil, stepAcc, digitVal_digitChar _ hmod]
      calc (a * 10 ^ (natDigitsRevAux fuel ((m + 1) / 10)).length + (m + 1) / 10) * 10
              + (m + 1) % 10
          = a * (10 ^ (natDigitsRevAux fuel ((m + 1) / 10)).length * 10)
              + (10 * ((m + 1) / 10) + (m + 1) % 10) := by ring
        _ = a * 10 ^ ((natDigitsRevAux fuel ((m + 1) / 10)).length + 1) + (m + 1) := by
              rw [hdm, pow_succ]

lemma digitsToNat_natToChars (n : Nat) : digitsToNat (natToChars n) = n := by
  by_cases h : n = 0
  · subst h; decide
  · unfold natToChars
    rw [if_neg h]
    unfold digitsToNat natDigitsRev
    rw [foldl_natDigitsRevAux n n 0 le_rfl]
    simp

lemma natToChars_digits (n : Nat) : ∀ c ∈ natToChars n, isDigitCh c = true := by
  intro c hc
  unfold natToChars at hc
  split at hc
  · simp only [List.mem_singleton] at hc
    subst hc; decide
  · rw [List.mem_reverse] at hc
    exact mem_natDigitsRevAux_digit n n c hc

lemma natToChars_ne_nil (n : Nat) : natToChars n ≠ [] := by
  unfold natToChars
  split
  · simp
  · rename_i h
    cases n with
    | zero => exact absurd rfl h
    | succ m => simp [natDigitsRev, natDigitsRevAux]

lemma takeWhile_of_all {p : Char → Bool} :
    ∀ l : List Char, (∀ c ∈ l, p c = true) → l.takeWhile p = l := by
  intro l
  induction l with
  | nil => intro _; rfl
  | cons c cs ih =>
    intro h
    rw [List.takeWhile_cons, if_pos (h c (by simp)), ih (fun x hx => h x (by simp [hx]))]

lemma extractDigits_of_digits (l : List Char) (hne : l ≠ [])
    (hall : ∀ c ∈ l, isDigitCh c = true) :
    extractDigits l = (digitsToNat l : Int) := by
  unfold extractDigits
  rw [takeWhile_of_all l hall, if_neg (by simpa using hne)]

lemma not_space_of_digit {c : Char} (h : isDigitCh c = true) : isSpaceCh c = false := by
  simp only [isDigitCh, Bool.and_eq_true, decide_eq_true_eq] at h
  simp only [isSpaceCh, Bool.or_eq_false_iff, Bool.and_eq_false_iff, decide_eq_false_iff_not]
  omega

lemma dropWhile_cons_of_not_space {c : Char} (l : List Char) (h : isSpaceCh c = false) :
    (c :: l).dropWhile isSpaceCh = c :: l := by
  rw [List.dropWhile_cons, if_neg (by simp [h])]

lemma extractInt_intToChars (i : Int) : extractInt (intToChars i) = i := by
  by_cases hneg : i < 0
  · unfold intToChars
    rw [if_pos hneg]
    unfold extractInt
    rw [dropWhile_cons_of_not_space _ (by decide)]
    simp only [extractIntTrim, eq_self_iff_true, if_true]
    rw [extractDigits_of_digits _ (natToChars_ne_nil _) (natToChars_digits _),
      digitsToNat_natToChars]
    omega
  · unfold intToChars
    rw [if_neg hneg]
    obtain ⟨c, rest, hl⟩ : ∃ c rest, natToChars i.natAbs = c :: rest := by
      cases hx : natToChars i.natAbs with
      | nil => exact absurd hx (natToChars_ne_nil _)
      | cons c rest => exact ⟨c, rest, rfl⟩
    have hcd : isDigitCh c = true := natToChars_digits _ c (by rw [hl]; simp)
    have hc45 : ¬ c = Char.ofNat 45 := by
      intro he
      rw [he] at hcd
      exact absurd hcd (by decide)
    have hc43 : ¬ c = Char.ofNat 43 := by
      intro he
      rw [he] at hcd
      exact absurd hcd (by decide)
    unfold extractInt
    rw [hl, dropWhile_cons_of_not_space _ (not_space_of_digit hcd)]
    simp only [extractIntTrim, if_neg hc45, if_neg hc43]
    rw [← hl, extractDigits_of_digits _ (natToChars_ne_nil _) (natToChars_digits _),
      digitsToNat_natToChars]
    omega

end utils

/-- C1: `HostEpoch.elapsed()` (the read overload) always returns
`BmcEpoch.elapsed() + Offset`; in particular the invariant
`HostEpoch.elapsed() == BmcEpoch.elapsed() + Offset` holds in every
state, including every state with Owner = Split. -/
theorem hostElapsed_eq_bmcElapsed_add_offset (s : State) :
    HostEpoch.elapsed s = BmcEpoch.elapsed s + s.offset := rfl

/-- C2: for every (Mode, Owner, requester) triple the policy decision
matches the §4.1 tables exactly: a BMC-side write is allowed iff
Mode = Manual and Owner ∈ {BMC, Both}; a Host-side write is allowed iff
Owner = Split (any Mode) or Mode = Manual with Owner ∈ {Host, Both};
every other triple is denied.  `isSetAllowed` is a pure function of its
three arguments, so the decision cannot mutate state. -/
theorem isSetAllowed_matches_tables :
    ∀ (m : Mode) (o : Owner) (r : Requester),
      isSetAllowed m o r = true ↔
        (r = Requester.bmc ∧ m = Mode.Manual ∧ (o = Owner.BMC ∨ o = Owner.Both)) ∨
        (r = Requester.host ∧
          (o = Owner.Split ∨ (m = Mode.Manual ∧ (o = Owner.Host ∨ o = Owner.Both)))) := by
  intro m o r
  cases m <;> cases o <;> cases r <;> decide

/-- C3: under Owner = Split a host-side `elapsed(target)` write is
allowed; it sets Offset to `target - BmcEpoch.elapsed()`, persists that
offset to the Offset Store, and leaves the real clock (and Mode/Owner)
untouched, so an immediately following `HostEpoch.elapsed()` read
returns `target` (exactly, in this model, where no real time passes
between the two intervening BMC reads). -/
theorem hostSetElapsed_split_sets_offset (s : State) (target : Int)
    (h : s.timeOwner = Owner.Split) :
    HostEpoch.setElapsed s target =
      Except.ok { s with offset := target - BmcEpoch.elapsed s,
                         store := some (target - BmcEpoch.elapsed s) } ∧
    HostEpoch.elapsed { s with offset := target - BmcEpoch.elapsed s,
                               store := some (target - BmcEpoch.elapsed s) } = target := by
  have hallow : isSetAllowed s.timeMode s.timeOwner Requester.host = true := by
    rw [h]; cases s.timeMode <;> rfl
  constructor
  · unfold HostEpoch.setElapsed
    rw [if_pos hallow, if_pos h]
    rfl
  · show BmcEpoch.elapsed s + (target - BmcEpoch.elapsed s) = target
    ring

/-- Witness for C3 at a concrete Split state. -/
theorem hostSetElapsed_split_sets_offset_witness :
    (⟨Mode.Manual, Owner.Split, 1000, 5, none⟩ : State).timeOwner = Owner.Split ∧
    (HostEpoch.setElapsed ⟨Mode.Manual, Owner.Split, 1000, 5, none⟩ 4000 =
        Except.ok ⟨Mode.Manual, Owner.Split, 1000, 3000, some 3000⟩ ∧
      HostEpoch.elapsed ⟨Mode.Manual, Owner.Split, 1000, 3000, some 3000⟩ = 4000) :=
  ⟨rfl, hostSetElapsed_split_sets_offset ⟨Mode.Manual, Owner.Split, 1000, 5, none⟩ 4000 rfl⟩

/-- C4 counterexample: in the state with Owner = Both, Offset 0 and the
clock at 100, `onBmcTimeChanged 200` leaves Offset at 0 rather than at
`(old BmcEpoch.elapsed() + old Offset) - newBmcValue = -100`, so the
claim's unconditional offset formula fails for non-Split owners (the
spec itself requires that the hook not reintroduce a nonzero Offset
while Owner is non-Split). -/
theorem onBmcTimeChanged_formula_fails_nonsplit :
    ¬ ((HostEpoch.onBmcTimeChanged ⟨Mode.Manual, Owner.Both, 100, 0, none⟩ 200).offset =
        BmcEpoch.elapsed ⟨Mode.Manual, Owner.Both, 100, 0, none⟩ + 0 - 200) := by
  decide

/-- C4 (amended): when Owner = Split, `onBmcTimeChanged(newBmcValue)`
sets Offset to `(old BmcEpoch.elapsed() + old Offset) - newBmcValue`,
persists it, and the host-visible epoch immediately after the BMC clock
jump equals the host-visible epoch immediately before it. -/
theorem onBmcTimeChanged_split_reconciles (s : State) (v : Int)
    (h : s.timeOwner = Owner.Split) :
    (HostEpoch.onBmcTimeChanged s v).offset = BmcEpoch.elapsed s + s.offset - v ∧
    (HostEpoch.onBmcTimeChanged s v).store = some (BmcEpoch.elapsed s + s.offset - v) ∧
    (HostEpoch.onBmcTimeChanged s v).bmcTime = v ∧
    HostEpoch.elapsed (HostEpoch.onBmcTimeChanged s v) = HostEpoch.elapsed s := by
  unfold HostEpoch.onBmcTimeChanged
  rw [if_pos h]
  refine ⟨rfl, rfl, rfl, ?_⟩
  show v + (s.bmcTime + s.offset - v) = s.bmcTime + s.offset
  ring

/-- Witness for C4's amended theorem at a concrete Split state. -/
theorem onBmcTimeChanged_split_reconciles_witness :
    (⟨Mode.Manual, Owner.Split, 100, 60, none⟩ : State).timeOwner = Owner.Split ∧
    ((HostEpoch.onBmcTimeChanged ⟨Mode.Manual, Owner.Split, 100, 60, none⟩ 160).offset = 0 ∧
      (HostEpoch.onBmcTimeChanged ⟨Mode.Manual, Owner.Split, 100, 60, none⟩ 160).store = some 0 ∧
      (HostEpoch.onBmcTimeChanged ⟨Mode.Manual, Owner.Split, 100, 60, none⟩ 160).bmcTime = 160 ∧
      HostEpoch.elapsed (HostEpoch.onBmcTimeChanged ⟨Mode.Manual, Owner.Split, 100, 60, none⟩ 160) =
        HostEpoch.elapsed ⟨Mode.Manual, Owner.Split, 100, 60, none⟩) :=
  ⟨rfl, onBmcTimeChanged_split_reconciles ⟨Mode.Manual, Owner.Split, 100, 60, none⟩ 160 rfl⟩

/-- C5: whenever Policy denies a write for the relevant requester, the
corresponding `elapsed(target)` call fails with `NotAllowed` and
returns no successor state: the caller keeps the old state, so Offset,
the real clock, Mode and Owner are all unchanged (the policy check
precedes any mutation in both write paths). -/
theorem setElapsed_denied_fails_without_mutation (s : State) (target : Int) :
    (isSetAllowed s.timeMode s.timeOwner Requester.host = false →
      HostEpoch.setElapsed s target = Except.error TimeError.notAllowed) ∧
    (isSetAllowed s.timeMode s.timeOwner Requester.bmc = false →
      BmcEpoch.setElapsed s target = Except.error TimeError.notAllowed) := by
  constructor
  · intro hd
    unfold HostEpoch.setElapsed
    rw [if_neg (by simp [hd])]
  · intro hd
    unfold BmcEpoch.setElapsed
    rw [if_neg (by simp [hd])]

/-- Witness for C5 in the NTP/Host state, where both requesters are
denied. -/
theorem setElapsed_denied_fails_without_mutation_witness :
    isSetAllowed Mode.NTP Owner.Host Requester.host = false ∧
    isSetAllowed Mode.NTP Owner.Host Requester.bmc = false ∧
    HostEpoch.setElapsed ⟨Mode.NTP, Owner.Host, 100, 0, none⟩ 7 =
      Except.error TimeError.notAllowed ∧
    BmcEpoch.setElapsed ⟨Mode.NTP, Owner.Host, 100, 0, none⟩ 7 =
      Except.error TimeError.notAllowed :=
  ⟨rfl, rfl,
    (setElapsed_denied_fails_without_mutation ⟨Mode.NTP, Owner.Host, 100, 0, none⟩ 7).1 rfl,
    (setElapsed_denied_fails_without_mutation ⟨Mode.NTP, Owner.Host, 100, 0, none⟩ 7).2 rfl⟩

/-- C6: every owner transition into BMC, Host or Both resets Offset to
0 and persists the 0, after which the host-visible epoch equals the BMC
epoch. -/
theorem onOwnerChanged_nonsplit_clears_offset (s : State) (newOwner : Owner)
    (h : newOwner ≠ Owner.Split) :
    (HostEpoch.onOwnerChanged s newOwner).offset = 0 ∧
    (HostEpoch.onOwnerChanged s newOwner).store = some 0 ∧
    (HostEpoch.onOwnerChanged s newOwner).timeOwner = newOwner ∧
    HostEpoch.elapsed (HostEpoch.onOwnerChanged s newOwner)
      = BmcEpoch.elapsed (HostEpoch.onOwnerChanged s newOwner) := by
  unfold HostEpoch.onOwnerChanged
  rw [if_neg h]
  refine ⟨rfl, rfl, rfl, ?_⟩
  show s.bmcTime + (0 : Int) = s.bmcTime
  ring

/-- Witness for C6: leaving Split for Both clears a nonzero offset. -/
theorem onOwnerChanged_nonsplit_clears_offset_witness :
    Owner.Both ≠ Owner.Split ∧
    ((HostEpoch.onOwnerChanged ⟨Mode.Manual, Owner.Split, 100, 60, some 60⟩ Owner.Both).offset = 0 ∧
      (HostEpoch.onOwnerChanged ⟨Mode.Manual, Owner.Split, 100, 60, some 60⟩ Owner.Both).store = some 0 ∧
      (HostEpoch.onOwnerChanged ⟨Mode.Manual, Owner.Split, 100, 60, some 60⟩ Owner.Both).timeOwner = Owner.Both ∧
      HostEpoch.elapsed (HostEpoch.onOwnerChanged ⟨Mode.Manual, Owner.Split, 100, 60, some 60⟩ Owner.Both)
        = BmcEpoch.elapsed (HostEpoch.onOwnerChanged ⟨Mode.Manual, Owner.Split, 100, 60, some 60⟩ Owner.Both)) :=
  ⟨by decide, onOwnerChanged_nonsplit_clears_offset ⟨Mode.Manual, Owner.Split, 100, 60, some 60⟩
    Owner.Both (by decide)⟩

/-- C7: while Owner is not Split, `onBmcTimeChanged` never makes the
offset nonzero: in every state with a non-Split owner and Offset = 0,
the offset is still 0 after the hook runs, for any new BMC value. -/
theorem onBmcTimeChanged_nonsplit_keeps_zero_offset (s : State) (v : Int)
    (h1 : s.timeOwner ≠ Owner.Split) (h2 : s.offset = 0) :
    (HostEpoch.onBmcTimeChanged s v).offset = 0 := by
  unfold HostEpoch.onBmcTimeChanged
  rw [if_neg h1]
  exact h2

/-- Witness for C7 at a concrete Owner = BMC state. -/
theorem onBmcTimeChanged_nonsplit_keeps_zero_offset_witness :
    (⟨Mode.NTP, Owner.BMC, 100, 0, none⟩ : State).timeOwner ≠ Owner.Split ∧
    (⟨Mode.NTP, Owner.BMC, 100, 0, none⟩ : State).offset = 0 ∧
    (HostEpoch.onBmcTimeChanged ⟨Mode.NTP, Owner.BMC, 100, 0, none⟩ 999).offset = 0 :=
  ⟨by decide, rfl,
    onBmcTimeChanged_nonsplit_keeps_zero_offset ⟨Mode.NTP, Owner.BMC, 100, 0, none⟩ 999
      (by decide) rfl⟩

/-- C8: reconciliation is idempotent on the visible value: for every
state and every `v`, a second `onBmcTimeChanged v` with no intervening
write leaves `HostEpoch.elapsed()` at the value it had after the first
call. -/
theorem onBmcTimeChanged_idempotent_on_elapsed (s : State) (v : Int) :
    HostEpoch.elapsed (HostEpoch.onBmcTimeChanged (HostEpoch.onBmcTimeChanged s v) v)
      = HostEpoch.elapsed (HostEpoch.onBmcTimeChanged s v) := by
  by_cases h : s.timeOwner = Owner.Split
  · simp only [HostEpoch.onBmcTimeChanged, HostEpoch.elapsed, h, if_true, eq_self_iff_true]
    ring
  · simp only [HostEpoch.onBmcTimeChanged, HostEpoch.elapsed, h, if_false]

/-- C9: persistence round-trip: writing any signed integer offset with
`utils::writeData` and reading it back with `utils::readData` from the
same file yields exactly the original value, negative values
included. -/
theorem readData_writeData_roundtrip (fs : utils.FileSys) (fileName : String) (d : Int) :
    utils.readData (utils.writeData fs fileName d) fileName = d := by
  unfold utils.readData utils.writeData
  simp [utils.extractInt_intToChars]

/-- C10: reading from a file name that names no existing file returns
the value-initialized default 0 rather than an error: absence of the
persisted offset is equivalent to a stored offset of zero. -/
theorem readData_missing_file_returns_zero (fs : utils.FileSys) (fileName : String)
    (h : fs fileName = none) :
    utils.readData fs fileName = 0 := by
  unfold utils.readData
  rw [h]

/-- Witness for C10 on the empty file system. -/
theorem readData_missing_file_returns_zero_witness :
    ((fun _ => none : utils.FileSys) "saved_host_offset" = none) ∧
    utils.readData (fun _ => none) "saved_host_offset" = 0 :=
  ⟨rfl, readData_missing_file_returns_zero (fun _ => none) "saved_host_offset" rfl⟩

end PhosphorTime
